import Mathlib

/-!
# SimpleRingBuffer (hi_tools/hi_standalone_components/RingBuffer.h)

A shallow embedding of `hise::SimpleRingBuffer` and of its nested
`PropertyObject`, followed by theorems about the embedded operations.

Conventions of the embedding

* A C++ `int` is a Lean `Int`.  The operations below only compare, clamp and
  assign integers, or step a counter by one, so no 32-bit wrap-around is
  involved in any statement made here.
* A `juce::var` holding an integer is a Lean `Int`; the conversion
  `(int)newValue` narrows it to 32 bits (`varToInt`).
* A method taking `int& v` and returning `bool` becomes a function returning
  the pair `(result, value of v afterwards)`.
* `jassert` is a debug-only check that does not alter control flow; it has no
  counterpart in the embedding.  Locks are not represented: every operation is
  taken as one atomic step.
* `throw String(..)` becomes `Except.error ..`.
* The ring buffer and the property object it holds refer to each other.  The
  embedding keeps the property object inside the ring buffer record and
  represents the weak back reference `PropertyObject::buffer` by a flag that
  says whether it has been set (to the holder).
-/

namespace hise

/-- Stand-in for `juce::Identifier`: a name, compared by its text. -/
abbrev Identifier := String

namespace RingBufferIds

def BufferLength : Identifier := "BufferLength"

def NumChannels : Identifier := "NumChannels"

def Active : Identifier := "Active"

end RingBufferIds

/-- An audio sample.  The source stores `float`; the operations embedded here
only copy samples and clear them to zero, so integers stand for them. -/
abbrev Sample := Int

/-- Modelled from the spec: `jlimit` of the JUCE library, which constrains a
value to the closed range between a lower and an upper limit ("clamps buffer
length to [512, 65536]"). -/
def jlimit (lowerLimit upperLimit valueToConstrain : Int) : Int :=
  if valueToConstrain < lowerLimit then lowerLimit
  else if upperLimit < valueToConstrain then upperLimit
  else valueToConstrain

/-- Modelled from the spec: `juce::AudioSampleBuffer`, the "owned 2D sample
storage, numChannels x capacitySamples".  The two dimensions are kept as the
integers that were requested; `channels` holds the samples channel by
channel. -/
structure AudioSampleBuffer where
  numChannels : Int
  size : Int
  channels : List (List Sample)
  deriving DecidableEq, Repr

namespace AudioSampleBuffer

def getNumChannels (b : AudioSampleBuffer) : Int := b.numChannels

def getNumSamples (b : AudioSampleBuffer) : Int := b.size

/-- Modelled from the spec: `setSize` "reallocates" the storage to the new
dimensions.  The content after a reallocation is unspecified; here every
sample that existed keeps its value and new samples are zero.  Each caller
embedded below clears the buffer right afterwards. -/
def setSize (b : AudioSampleBuffer) (newNumChannels newNumSamples : Int) : AudioSampleBuffer :=
  { numChannels := newNumChannels
    size := newNumSamples
    channels := (List.range newNumChannels.toNat).map fun ch =>
      (List.range newNumSamples.toNat).map fun i => ((b.channels.getD ch []).getD i 0) }

/-- Modelled from the spec: `clear` sets every sample to zero and keeps the
dimensions. -/
def clear (b : AudioSampleBuffer) : AudioSampleBuffer :=
  { b with channels := b.channels.map fun ch => ch.map fun _ => 0 }

/-- The all-zero buffer of the given dimensions. -/
def zeros (numChannels numSamples : Int) : AudioSampleBuffer :=
  { numChannels := numChannels
    size := numSamples
    channels := List.replicate numChannels.toNat (List.replicate numSamples.toNat 0) }

/-- Modelled from the spec: `setSample` stores one sample of one channel. -/
def setSample (b : AudioSampleBuffer) (channel index : Nat) (v : Sample) : AudioSampleBuffer :=
  { b with channels := b.channels.set channel ((b.channels.getD channel []).set index v) }

end AudioSampleBuffer

/-- Modelled from the spec: the two observable event kinds of the buffer's
updater, "content-changed" and "content-redirect". -/
inductive EventType where
  | ContentChange
  | ContentRedirected
  deriving DecidableEq, Repr

/-- Modelled from the spec: `juce::NamedValueSet`, a "mapping of named keys to
values ..., keys unique".  The values stored by the code embedded here are
integers. -/
abbrev NamedValueSet := List (Identifier × Int)

namespace NamedValueSet

/-- Modelled from the spec: `set` replaces the value of an existing key or
adds the key. -/
def set : NamedValueSet → Identifier → Int → NamedValueSet
  | [], name, newValue => [(name, newValue)]
  | (k, x) :: rest, name, newValue =>
    if k = name then (name, newValue) :: rest else (k, x) :: set rest name newValue

/-- Modelled from the spec: the value stored under a key, if any. -/
def get : NamedValueSet → Identifier → Option Int
  | [], _ => none
  | (k, x) :: rest, name => if k = name then some x else get rest name

def contains (s : NamedValueSet) (name : Identifier) : Bool := (get s name).isSome

end NamedValueSet

/-- Modelled from the spec: the conversion `(int)newValue` of a `juce::var`
that holds an integer.  The value is narrowed to the 32-bit two's complement
range, so a value that already is an `int` is returned as it is. -/
def varToInt (newValue : Int) : Int :=
  (newValue + 2147483648) % 4294967296 - 2147483648

/-- Source function `SimpleRingBuffer::withinRange<LowerLimit, UpperLimit>(int& r)`. -/
def withinRange (LowerLimit UpperLimit : Int) (r : Int) : Bool × Int :=
  if r ≥ LowerLimit ∧ r ≤ UpperLimit then (false, r)
  else (true, jlimit LowerLimit UpperLimit r)

/-- Source function `SimpleRingBuffer::toFixSize<FixSize>(int& v)`. -/
def toFixSize (FixSize : Int) (v : Int) : Bool × Int :=
  let ok := decide (v = FixSize)
  (ok, FixSize)

/-- The body of the base class method `PropertyObject::validateInt`. -/
def PropertyObject.validateInt (id : Identifier) (v : Int) : Bool × Int :=
  if id = RingBufferIds.BufferLength then withinRange 512 65536 v
  else if id = RingBufferIds.NumChannels then withinRange 1 2 v
  else (false, v)

/-- Source type `SimpleRingBuffer::PropertyObject`.  `validator` is the implementation of
the virtual method `validateInt` that the object's dynamic type provides
(`PropertyObject.validateInt` for the base class); `buffer` tells whether the
weak back reference has been set. -/
structure PropertyObject where
  validator : Identifier → Int → Bool × Int
  properties : NamedValueSet
  buffer : Bool

/-- Source type `SimpleRingBuffer`.  `updater` is the log of the messages sent through
`getUpdater()`, oldest first.  The sample rate `sr` takes no part in any
operation embedded here and is left out. -/
structure SimpleRingBuffer where
  numWriters : Int
  properties : PropertyObject
  active : Bool
  externalBuffer : AudioSampleBuffer
  isBeingWritten : Bool
  numAvailable : Int
  writeIndex : Int
  readIndex : Int
  internalBuffer : AudioSampleBuffer
  updateCounter : Int
  updater : List EventType

namespace SimpleRingBuffer

/-- Modelled from the spec: `validateLength` is declared in the header only;
the requested length is run "through the active PropertyObject's validators". -/
def validateLength (b : SimpleRingBuffer) (v : Int) : Bool × Int :=
  b.properties.validator RingBufferIds.BufferLength v

/-- Modelled from the spec: `validateChannels` is declared in the header only;
the requested channel count is run "through the active PropertyObject's
validators". -/
def validateChannels (b : SimpleRingBuffer) (v : Int) : Bool × Int :=
  b.properties.validator RingBufferIds.NumChannels v

/-- Modelled from the spec: `sendContentRedirectMessage` of the updater "emits
a content redirect notification"; the log gains one entry. -/
def sendContentRedirectMessage (b : SimpleRingBuffer) : SimpleRingBuffer :=
  { b with updater := b.updater ++ [EventType.ContentRedirected] }

/-- Source function `SimpleRingBuffer::setRingBufferSize(int numChannels,
int numSamples, bool acquireLock)`. -/
def setRingBufferSize (b : SimpleRingBuffer) (numChannels numSamples : Int)
    (_acquireLock : Bool) : SimpleRingBuffer :=
  let numSamples := (b.validateLength numSamples).2
  let numChannels := (b.validateChannels numChannels).2
  if numChannels ≠ b.internalBuffer.getNumChannels ∨
      numSamples ≠ b.internalBuffer.getNumSamples then
    sendContentRedirectMessage
      { b with
        internalBuffer := (b.internalBuffer.setSize numChannels numSamples).clear
        numAvailable := 0
        writeIndex := 0
        updateCounter := 0 }
  else b

/-- Source function `SimpleRingBuffer::setUsedByWriter(bool shouldBeUsed)`. -/
def setUsedByWriter (b : SimpleRingBuffer) (shouldBeUsed : Bool) :
    Except String SimpleRingBuffer :=
  if b.numWriters ≠ 0 ∧ shouldBeUsed = true then
    Except.error "Multiple Writers"
  else if shouldBeUsed then
    Except.ok { b with numWriters := b.numWriters + 1 }
  else
    Except.ok { b with numWriters := b.numWriters - 1 }

/-- A sequence of `setUsedByWriter` calls, oldest first; a call that throws
leaves the buffer as it was. -/
def setUsedByWriterCalls (b : SimpleRingBuffer) : List Bool → SimpleRingBuffer
  | [] => b
  | shouldBeUsed :: rest =>
    match b.setUsedByWriter shouldBeUsed with
    | Except.ok b' => setUsedByWriterCalls b' rest
    | Except.error _ => setUsedByWriterCalls b rest

/-- Every `setUsedByWriter(false)` of the sequence is made while a writer is
registered (`numWriters != 0`). -/
def deregistersRegisteredOnly (b : SimpleRingBuffer) : List Bool → Bool
  | [] => true
  | shouldBeUsed :: rest =>
    (shouldBeUsed || decide (b.numWriters ≠ 0)) &&
    match b.setUsedByWriter shouldBeUsed with
    | Except.ok b' => deregistersRegisteredOnly b' rest
    | Except.error _ => deregistersRegisteredOnly b rest

/-- Modelled from the spec: one sample frame of `write`, which "copies each
sample into internalBuffer at the circular position derived from writeIndex,
incrementing writeIndex modulo capacity after each sample; increments
numAvailable up to capacity".  Frame `i` of the input is stored; input
channels beyond the buffer's channel count are ignored. -/
def writeFrame (b : SimpleRingBuffer) (data : List (List Sample)) (numChannels : Int)
    (i : Nat) : SimpleRingBuffer :=
  let channelsToWrite := min numChannels b.internalBuffer.getNumChannels
  { b with
    internalBuffer :=
      (List.range channelsToWrite.toNat).foldl
        (fun buf c => buf.setSample c b.writeIndex.toNat ((data.getD c []).getD i 0))
        b.internalBuffer
    writeIndex := (b.writeIndex + 1) % b.internalBuffer.getNumSamples
    numAvailable := min (b.numAvailable + 1) b.internalBuffer.getNumSamples }

/-- Modelled from the spec: `write(const float** data, int numChannels,
int numSamples)` is declared in the header only.  "active == true, else the
call is a no-op"; it "sets isBeingWritten = true", stores the frames one after
the other and "clears the flag when done". -/
def write (b : SimpleRingBuffer) (data : List (List Sample)) (numChannels numSamples : Int) :
    SimpleRingBuffer :=
  if b.active then
    let b1 := (List.range numSamples.toNat).foldl
      (fun s i => writeFrame s data numChannels i) { b with isBeingWritten := true }
    { b1 with isBeingWritten := false }
  else b

/-- Modelled from the spec: `read(AudioSampleBuffer& b)` is declared in the
header only.  The destination "is resized to match channel/sample counts" and
receives, "for each channel independently", "the region from writeIndex to
end, followed by the region from start to writeIndex"; the call "returns the
number of valid samples".  The result is the returned count together with the
destination buffer. -/
def read (b : SimpleRingBuffer) : Int × AudioSampleBuffer :=
  (b.numAvailable,
    { numChannels := b.internalBuffer.getNumChannels
      size := b.internalBuffer.getNumSamples
      channels := b.internalBuffer.channels.map fun ch =>
        ch.drop b.writeIndex.toNat ++ ch.take b.writeIndex.toNat })

/-- A sequence of single-channel `write` calls, oldest first, one call for each
block of samples. -/
def writeBlocks (b : SimpleRingBuffer) (blocks : List (List Sample)) : SimpleRingBuffer :=
  blocks.foldl (fun s block => s.write [block] 1 block.length) b

/-- A single-channel ring of capacity `C` holds the history `h` of written
samples: the write index is the number of samples modulo `C`, `numAvailable`
is that number capped at `C`, and the view from the write index to the end
followed by the start up to the write index is the last `C` entries of the
history, zeros standing for what precedes the first write. -/
def holdsHistory (s : SimpleRingBuffer) (C : Nat) (h : List Sample) : Prop :=
  ∃ ring : List Sample,
    s.internalBuffer = { numChannels := 1, size := (C : Int), channels := [ring] } ∧
    ring.length = C ∧
    s.writeIndex = ((h.length % C : Nat) : Int) ∧
    s.numAvailable = ((min h.length C : Nat) : Int) ∧
    ring.drop (h.length % C) ++ ring.take (h.length % C) =
      (List.replicate C 0 ++ h).drop h.length

/-- A buffer whose members have the initial values given in the header
(`numWriters = 0`, `active = true`, counters at zero), with empty 0 x 0 sample
buffers and holding a property object of the given validator that has not been
attached yet. -/
def withValidator (validator : Identifier → Int → Bool × Int) : SimpleRingBuffer :=
  { numWriters := 0
    properties := { validator := validator, properties := [], buffer := false }
    active := true
    externalBuffer := AudioSampleBuffer.zeros 0 0
    isBeingWritten := false
    numAvailable := 0
    writeIndex := 0
    readIndex := 0
    internalBuffer := AudioSampleBuffer.zeros 0 0
    updateCounter := 0
    updater := [] }

end SimpleRingBuffer

/-- A validator of a specialised property object: the buffer length is snapped
to four samples with `toFixSize`, the channel count is kept within one and two
as in the base class. -/
def fourSampleValidator (id : Identifier) (v : Int) : Bool × Int :=
  if id = RingBufferIds.BufferLength then toFixSize 4 v
  else if id = RingBufferIds.NumChannels then withinRange 1 2 v
  else (false, v)

namespace PropertyObject

end PropertyObject

end hise

/-! ## Helper lemmas -/

namespace hise

theorem jlimit_eq_max_min (lo hi v : Int) (h : lo ≤ hi) :
    jlimit lo hi v = max lo (min v hi) := by
  unfold jlimit
  split_ifs <;> omega

theorem withinRange_snd (lo hi v : Int) (h : lo ≤ hi) :
    (withinRange lo hi v).2 = max lo (min v hi) := by
  unfold withinRange
  split_ifs with h1
  · simp only; omega
  · simp only [jlimit_eq_max_min lo hi v h]

theorem withinRange_fst (lo hi v : Int) :
    (withinRange lo hi v).1 = true ↔ ¬ (lo ≤ v ∧ v ≤ hi) := by
  unfold withinRange
  split_ifs with h1
  · simp only [Bool.false_eq_true, false_iff, not_not]; omega
  · simp only [true_iff]; omega

/-- The result of the conversion is a 32-bit `int`. -/
theorem varToInt_range (n : Int) :
    -2147483648 ≤ varToInt n ∧ varToInt n ≤ 2147483647 := by
  unfold varToInt
  omega

theorem validateInt_at_bufferLength (v : Int) :
    PropertyObject.validateInt RingBufferIds.BufferLength v = withinRange 512 65536 v := by
  simp [PropertyObject.validateInt]

theorem AudioSampleBuffer.clear_setSize (buf : AudioSampleBuffer) (c n : Int) :
    (buf.setSize c n).clear = AudioSampleBuffer.zeros c n := by
  simp [AudioSampleBuffer.setSize, AudioSampleBuffer.clear, AudioSampleBuffer.zeros,
    List.map_const', Function.comp_def]

namespace SimpleRingBuffer

/-- The state after `setRingBufferSize` when the validated size differs from
the current one. -/
theorem setRingBufferSize_of_ne (b : SimpleRingBuffer) (numChannels numSamples : Int)
    (acquireLock : Bool)
    (h : (b.validateChannels numChannels).2 ≠ b.internalBuffer.getNumChannels ∨
      (b.validateLength numSamples).2 ≠ b.internalBuffer.getNumSamples) :
    b.setRingBufferSize numChannels numSamples acquireLock =
      { b with
        internalBuffer := AudioSampleBuffer.zeros (b.validateChannels numChannels).2
          (b.validateLength numSamples).2
        numAvailable := 0
        writeIndex := 0
        updateCounter := 0
        updater := b.updater ++ [EventType.ContentRedirected] } := by
  unfold setRingBufferSize
  simp only [if_pos h, sendContentRedirectMessage, AudioSampleBuffer.clear_setSize]

/-- The state after `setRingBufferSize` when the validated size is the current
one. -/
theorem setRingBufferSize_of_eq (b : SimpleRingBuffer) (numChannels numSamples : Int)
    (acquireLock : Bool)
    (hc : (b.validateChannels numChannels).2 = b.internalBuffer.getNumChannels)
    (hn : (b.validateLength numSamples).2 = b.internalBuffer.getNumSamples) :
    b.setRingBufferSize numChannels numSamples acquireLock = b := by
  unfold setRingBufferSize
  have h : ¬ ((b.validateChannels numChannels).2 ≠ b.internalBuffer.getNumChannels ∨
      (b.validateLength numSamples).2 ≠ b.internalBuffer.getNumSamples) := by
    simp [hc, hn]
  simp only [if_neg h]

/-- Whatever the branch taken, the buffer has the validated dimensions after
`setRingBufferSize`, and the property object is the one it was. -/
theorem setRingBufferSize_dims (b : SimpleRingBuffer) (numChannels numSamples : Int)
    (acquireLock : Bool) :
    (b.setRingBufferSize numChannels numSamples acquireLock).internalBuffer.getNumChannels =
        (b.validateChannels numChannels).2 ∧
    (b.setRingBufferSize numChannels numSamples acquireLock).internalBuffer.getNumSamples =
        (b.validateLength numSamples).2 ∧
    (b.setRingBufferSize numChannels numSamples acquireLock).properties = b.properties := by
  by_cases h : (b.validateChannels numChannels).2 ≠ b.internalBuffer.getNumChannels ∨
      (b.validateLength numSamples).2 ≠ b.internalBuffer.getNumSamples
  · rw [setRingBufferSize_of_ne b _ _ _ h]
    simp [AudioSampleBuffer.zeros, AudioSampleBuffer.getNumChannels,
      AudioSampleBuffer.getNumSamples]
  · have hc : (b.validateChannels numChannels).2 = b.internalBuffer.getNumChannels := by
      by_contra hc; exact h (Or.inl hc)
    have hn : (b.validateLength numSamples).2 = b.internalBuffer.getNumSamples := by
      by_contra hn; exact h (Or.inr hn)
    rw [setRingBufferSize_of_eq b _ _ _ hc hn]
    exact ⟨hc.symm, hn.symm, rfl⟩

end SimpleRingBuffer

namespace NamedValueSet

end NamedValueSet

namespace PropertyObject

end PropertyObject

namespace SimpleRingBuffer

/-- The invariant `numWriters ∈ {0, 1}` is kept by a call sequence that only
deregisters a registered writer. -/
theorem paired_calls_keep_numWriters (calls : List Bool) :
    ∀ b : SimpleRingBuffer, (b.numWriters = 0 ∨ b.numWriters = 1) →
      b.deregistersRegisteredOnly calls = true →
      (b.setUsedByWriterCalls calls).numWriters = 0 ∨
        (b.setUsedByWriterCalls calls).numWriters = 1 := by
  induction calls with
  | nil => intro b hb _; simpa [setUsedByWriterCalls] using hb
  | cons c rest ih =>
    intro b hb hp
    cases c with
    | true =>
      by_cases h0 : b.numWriters = 0
      · have e : b.setUsedByWriter true = Except.ok { b with numWriters := b.numWriters + 1 } := by
          simp [setUsedByWriter, h0]
        simp only [deregistersRegisteredOnly, e, Bool.true_or, Bool.true_and] at hp
        simp only [setUsedByWriterCalls, e]
        exact ih _ (by simp [h0]) hp
      · have e : b.setUsedByWriter true = Except.error "Multiple Writers" := by
          simp [setUsedByWriter, h0]
        simp only [deregistersRegisteredOnly, e, Bool.true_or, Bool.true_and] at hp
        simp only [setUsedByWriterCalls, e]
        exact ih _ hb hp
    | false =>
      have e : b.setUsedByWriter false = Except.ok { b with numWriters := b.numWriters - 1 } := by
        simp [setUsedByWriter]
      simp only [deregistersRegisteredOnly, e, Bool.false_or, Bool.and_eq_true,
        decide_eq_true_eq] at hp
      simp only [setUsedByWriterCalls, e]
      refine ih _ ?_ hp.2
      have h1 : b.numWriters = 1 := by
        rcases hb with hb | hb
        · exact absurd hb hp.1
        · exact hb
      simp [h1]

end SimpleRingBuffer

namespace SimpleRingBuffer

/-- Storing at position `A.length` and stepping the index modulo the length
turns the view "from the index to the end, then from the start to the index"
into the same view without its first sample and with the new sample last. -/
theorem rotated_set (A B : List Sample) (y x : Sample) :
    ((A ++ y :: B).set A.length x).drop ((A.length + 1) % (A ++ y :: B).length) ++
      ((A ++ y :: B).set A.length x).take ((A.length + 1) % (A ++ y :: B).length) =
    (B ++ A) ++ [x] := by
  have hset : (A ++ y :: B).set A.length x = A ++ x :: B := by simp
  rw [hset]
  rcases B with _ | ⟨z, B⟩
  · simp
  · have hlt : (A.length + 1) % (A ++ y :: z :: B).length = A.length + 1 := by
      apply Nat.mod_eq_of_lt; simp
    rw [hlt]
    have e : A ++ x :: z :: B = (A ++ [x]) ++ (z :: B) := by simp
    rw [e, List.drop_left' (by simp), List.take_left' (by simp)]
    simp

/-- The same step, for a position `w` inside an arbitrary ring. -/
theorem rotated_set_at (ring : List Sample) (w : Nat) (x : Sample) (hw : w < ring.length) :
    (ring.set w x).drop ((w + 1) % ring.length) ++ (ring.set w x).take ((w + 1) % ring.length) =
      (ring.drop w ++ ring.take w).tail ++ [x] := by
  have hsplit : ring = ring.take w ++ ring[w] :: ring.drop (w + 1) := by
    rw [← List.drop_eq_getElem_cons hw, List.take_append_drop]
  have hlen : (ring.take w).length = w := by
    rw [List.length_take]; omega
  have h := rotated_set (ring.take w) (ring.drop (w + 1)) ring[w] x
  rw [← hsplit, hlen] at h
  rw [h, List.drop_eq_getElem_cons hw]
  simp only [List.cons_append, List.tail_cons, List.append_assoc]

theorem holdsHistory_writeFrame (s : SimpleRingBuffer) (C : Nat) (h : List Sample)
    (data : List (List Sample)) (i : Nat) (hs : s.holdsHistory C h) :
    (s.writeFrame data 1 i).holdsHistory C (h ++ [(data.getD 0 []).getD i 0]) ∧
    (s.writeFrame data 1 i).active = s.active := by
  refine ⟨?_, rfl⟩
  obtain ⟨ring, hbuf, hlen, hw, hav, hrot⟩ := hs
  refine ⟨ring.set (h.length % C) ((data.getD 0 []).getD i 0), ?_, ?_, ?_, ?_, ?_⟩
  · have hr : List.range 1 = [0] := rfl
    unfold writeFrame
    simp only [hbuf, hw, AudioSampleBuffer.getNumChannels, min_self, Int.toNat_one,
      hr, List.foldl_cons, List.foldl_nil, AudioSampleBuffer.setSample,
      Int.toNat_ofNat, List.getD_cons_zero, List.set_cons_zero]
  · rw [List.length_set]; exact hlen
  · simp only [writeFrame, hbuf, hw, AudioSampleBuffer.getNumSamples, List.length_append,
      List.length_singleton]
    rw [← Nat.mod_add_mod h.length C 1]
    push_cast
    rfl
  · simp only [writeFrame, hbuf, hav, AudioSampleBuffer.getNumSamples, List.length_append,
      List.length_singleton]
    omega
  · rcases Nat.eq_zero_or_pos C with hC | hC
    · subst hC
      have hnil : ring = [] := List.length_eq_zero.mp hlen
      subst hnil
      simp
    · have hwlt : h.length % C < ring.length := by
        rw [hlen]; exact Nat.mod_lt _ hC
      have hstep := rotated_set_at ring (h.length % C) ((data.getD 0 []).getD i 0) hwlt
      rw [hlen, Nat.mod_add_mod] at hstep
      have hle : h.length + 1 ≤ (List.replicate C (0 : Sample) ++ h).length := by
        simp only [List.length_append, List.length_replicate]
        omega
      rw [List.length_append, List.length_singleton, hstep, hrot, List.tail_drop,
        ← List.append_assoc, List.drop_append_of_le_length hle]

theorem holdsHistory_frames (data : List (List Sample)) (C : Nat) (j : Nat) :
    ∀ (s : SimpleRingBuffer) (h : List Sample), s.holdsHistory C h →
      ((List.range j).foldl (fun s i => writeFrame s data 1 i) s).holdsHistory C
          (h ++ (List.range j).map fun i => (data.getD 0 []).getD i 0) ∧
        ((List.range j).foldl (fun s i => writeFrame s data 1 i) s).active = s.active := by
  induction j with
  | zero => intro s h hs; simpa using hs
  | succ j ih =>
    intro s h hs
    obtain ⟨h1, a1⟩ := ih s h hs
    obtain ⟨h2, a2⟩ := holdsHistory_writeFrame _ C _ data j h1
    rw [List.range_succ, List.foldl_append, List.map_append, ← List.append_assoc]
    exact ⟨h2, a2.trans a1⟩

theorem map_getD_range (block : List Sample) :
    ((List.range block.length).map fun i => block.getD i 0) = block := by
  apply List.ext_getElem
  · simp
  · intro n h1 h2
    simp [List.getElem?_eq_getElem h2]

/-- One single-channel `write` call on an active buffer appends the block to
the history held by the ring. -/
theorem holdsHistory_write (s : SimpleRingBuffer) (C : Nat) (h block : List Sample)
    (hs : s.holdsHistory C h) (hactive : s.active = true) :
    (s.write [block] 1 block.length).holdsHistory C (h ++ block) ∧
    (s.write [block] 1 block.length).active = true := by
  have hs1 : ({ s with isBeingWritten := true } : SimpleRingBuffer).holdsHistory C h := hs
  obtain ⟨h1, a1⟩ := holdsHistory_frames [block] C block.length _ h hs1
  have hmap : ((List.range block.length).map fun i => (([block] : List (List Sample)).getD 0
      []).getD i 0) = block := by
    simpa using map_getD_range block
  rw [hmap] at h1
  unfold write
  rw [if_pos hactive, Int.toNat_ofNat]
  exact ⟨h1, a1.trans hactive⟩

theorem holdsHistory_writeBlocks (C : Nat) (blocks : List (List Sample)) :
    ∀ (s : SimpleRingBuffer) (h : List Sample), s.holdsHistory C h → s.active = true →
      (s.writeBlocks blocks).holdsHistory C (h ++ blocks.flatten) := by
  induction blocks with
  | nil => intro s h hs _; simpa [writeBlocks] using hs
  | cons block rest ih =>
    intro s h hs hactive
    obtain ⟨h1, a1⟩ := holdsHistory_write s C h block hs hactive
    have h2 := ih _ _ h1 a1
    simpa [writeBlocks, List.append_assoc] using h2

/-- A freshly cleared single-channel buffer holds the empty history. -/
theorem holdsHistory_fresh (s : SimpleRingBuffer) (C : Nat)
    (hbuf : s.internalBuffer = AudioSampleBuffer.zeros 1 C)
    (hw : s.writeIndex = 0) (hav : s.numAvailable = 0) :
    s.holdsHistory C [] := by
  refine ⟨List.replicate C 0, ?_, ?_, ?_, ?_, ?_⟩
  · rw [hbuf]; simp [AudioSampleBuffer.zeros]
  · simp
  · simpa using hw
  · simpa using hav
  · simp

/-- Reading a ring that holds a history of at least `C` samples returns `C` and
the last `C` samples of the history, oldest first. -/
theorem read_of_holdsHistory (s : SimpleRingBuffer) (C K : Nat) (h : List Sample)
    (hs : s.holdsHistory C h) (hlen : h.length = C + K) :
    s.read = ((C : Int), { numChannels := 1, size := (C : Int), channels := [h.drop K] }) := by
  obtain ⟨ring, hbuf, _, hw, hav, hrot⟩ := hs
  have hdrop : (List.replicate C (0 : Sample) ++ h).drop h.length = h.drop K := by
    rw [hlen]
    have hdrop := @List.drop_append Sample (List.replicate C 0) h K
    simpa using hdrop
  unfold read
  rw [hbuf, hw, hav]
  simp only [AudioSampleBuffer.getNumChannels, AudioSampleBuffer.getNumSamples,
    Int.toNat_ofNat, List.map_cons, List.map_nil, hrot, hdrop]
  congr 1
  simp [hlen]

end SimpleRingBuffer

end hise

/-! ## Theorems -/

namespace hise

/-- C1: for every integer `v`, the base class `validateInt` called with the key
`BufferLength` leaves `v` clamped into [512, 65536] and returns true exactly
when the original `v` was outside that range; 100 becomes 512 and 70000
becomes 65536, both with result true. -/
theorem validateInt_bufferLength_clamps (v : Int) :
    (PropertyObject.validateInt RingBufferIds.BufferLength v).2 = max 512 (min v 65536) ∧
    ((PropertyObject.validateInt RingBufferIds.BufferLength v).1 = true ↔
      ¬ (512 ≤ v ∧ v ≤ 65536)) ∧
    PropertyObject.validateInt RingBufferIds.BufferLength 100 = (true, 512) ∧
    PropertyObject.validateInt RingBufferIds.BufferLength 70000 = (true, 65536) := by
  refine ⟨?_, ?_, by decide, by decide⟩
  · rw [validateInt_at_bufferLength]; exact withinRange_snd 512 65536 v (by decide)
  · rw [validateInt_at_bufferLength]; exact withinRange_fst 512 65536 v

/-- C2: when the validated channel count or length differs from the current
dimensions of `internalBuffer`, `setRingBufferSize` leaves `numAvailable`,
`writeIndex` and `updateCounter` at zero, an all-zero `internalBuffer` of the
validated dimensions, and exactly one more content-redirect message in the
updater's log. -/
theorem setRingBufferSize_resets (b : SimpleRingBuffer) (numChannels numSamples : Int)
    (acquireLock : Bool)
    (hdiff : (b.validateChannels numChannels).2 ≠ b.internalBuffer.getNumChannels ∨
      (b.validateLength numSamples).2 ≠ b.internalBuffer.getNumSamples) :
    (b.setRingBufferSize numChannels numSamples acquireLock).numAvailable = 0 ∧
    (b.setRingBufferSize numChannels numSamples acquireLock).writeIndex = 0 ∧
    (b.setRingBufferSize numChannels numSamples acquireLock).updateCounter = 0 ∧
    (b.setRingBufferSize numChannels numSamples acquireLock).internalBuffer =
      AudioSampleBuffer.zeros (b.validateChannels numChannels).2 (b.validateLength numSamples).2 ∧
    (b.setRingBufferSize numChannels numSamples acquireLock).updater =
      b.updater ++ [EventType.ContentRedirected] := by
  rw [SimpleRingBuffer.setRingBufferSize_of_ne b _ _ _ hdiff]
  exact ⟨rfl, rfl, rfl, rfl, rfl⟩

theorem setRingBufferSize_resets_witness :
    (((SimpleRingBuffer.withValidator PropertyObject.validateInt).validateChannels 2).2 ≠
        (SimpleRingBuffer.withValidator PropertyObject.validateInt).internalBuffer.getNumChannels ∨
      ((SimpleRingBuffer.withValidator PropertyObject.validateInt).validateLength 100).2 ≠
        (SimpleRingBuffer.withValidator PropertyObject.validateInt).internalBuffer.getNumSamples) ∧
    ((SimpleRingBuffer.withValidator PropertyObject.validateInt).setRingBufferSize 2 100
        true).internalBuffer = AudioSampleBuffer.zeros 2 512 :=
  ⟨by decide,
    (setRingBufferSize_resets (SimpleRingBuffer.withValidator PropertyObject.validateInt)
      2 100 true (by decide)).2.2.2.1⟩

/-- C3: when a writer is already registered (`numWriters != 0`),
`setUsedByWriter(true)` throws "Multiple Writers"; no state results from the
call, so `numWriters` is what it was. -/
theorem setUsedByWriter_second_writer_throws (b : SimpleRingBuffer)
    (h : b.numWriters ≠ 0) :
    b.setUsedByWriter true = Except.error "Multiple Writers" ∧
    (b.setUsedByWriterCalls [true]).numWriters = b.numWriters := by
  have e : b.setUsedByWriter true = Except.error "Multiple Writers" := by
    simp [SimpleRingBuffer.setUsedByWriter, h]
  refine ⟨e, ?_⟩
  simp [SimpleRingBuffer.setUsedByWriterCalls, e]

theorem setUsedByWriter_second_writer_throws_witness :
    ((SimpleRingBuffer.withValidator PropertyObject.validateInt).setUsedByWriterCalls
        [true]).numWriters ≠ 0 ∧
    ((SimpleRingBuffer.withValidator PropertyObject.validateInt).setUsedByWriterCalls
        [true]).setUsedByWriter true = Except.error "Multiple Writers" :=
  ⟨by decide,
    (setUsedByWriter_second_writer_throws
      ((SimpleRingBuffer.withValidator PropertyObject.validateInt).setUsedByWriterCalls [true])
      (by decide)).1⟩

/-- C6 (what the code does): `toFixSize<N>` sets `v` to `N` and returns true
exactly when the requested `v` already was `N`; a request of 512 for the fixed
size 1024 returns false, a request of 1024 returns true. -/
theorem toFixSize_returns_unchanged_flag (N v : Int) :
    (toFixSize N v).2 = N ∧
    ((toFixSize N v).1 = true ↔ v = N) ∧
    toFixSize 1024 512 = (false, 1024) ∧
    toFixSize 1024 1024 = (true, 1024) := by
  refine ⟨rfl, ?_, by decide, by decide⟩
  simp [toFixSize]

/-- C9 (counterexample): on a buffer without writers, one `setUsedByWriter(false)`
succeeds and leaves `numWriters` at -1, which is neither 0 nor 1. -/
theorem numWriters_negative_after_deregister :
    (SimpleRingBuffer.withValidator PropertyObject.validateInt).numWriters = 0 ∧
    ((SimpleRingBuffer.withValidator PropertyObject.validateInt).setUsedByWriterCalls
      [false]).numWriters = -1 ∧
    ¬ (((SimpleRingBuffer.withValidator PropertyObject.validateInt).setUsedByWriterCalls
        [false]).numWriters = 0 ∨
      ((SimpleRingBuffer.withValidator PropertyObject.validateInt).setUsedByWriterCalls
        [false]).numWriters = 1) := by
  decide

/-- C9 (amended): in every state reached from a buffer without writers by a
sequence of `setUsedByWriter` calls in which `setUsedByWriter(false)` is only
called while a writer is registered (a call that throws leaving the state as it
was), `numWriters` is 0 or 1. -/
theorem numWriters_zero_or_one (b : SimpleRingBuffer) (calls : List Bool)
    (hfresh : b.numWriters = 0)
    (hpaired : b.deregistersRegisteredOnly calls = true) :
    (b.setUsedByWriterCalls calls).numWriters = 0 ∨
      (b.setUsedByWriterCalls calls).numWriters = 1 :=
  SimpleRingBuffer.paired_calls_keep_numWriters calls b (Or.inl hfresh) hpaired

theorem numWriters_zero_or_one_witness :
    (SimpleRingBuffer.withValidator PropertyObject.validateInt).numWriters = 0 ∧
    (SimpleRingBuffer.withValidator PropertyObject.validateInt).deregistersRegisteredOnly
      [true, true, false, true] = true ∧
    (((SimpleRingBuffer.withValidator PropertyObject.validateInt).setUsedByWriterCalls
        [true, true, false, true]).numWriters = 0 ∨
      ((SimpleRingBuffer.withValidator PropertyObject.validateInt).setUsedByWriterCalls
        [true, true, false, true]).numWriters = 1) :=
  ⟨rfl, by decide,
    numWriters_zero_or_one (SimpleRingBuffer.withValidator PropertyObject.validateInt)
      [true, true, false, true] rfl (by decide)⟩

/-- C10: when the validated channel count and length are the current
dimensions of `internalBuffer`, `setRingBufferSize` returns the buffer as it
was (sample content, `numAvailable`, `writeIndex`, `updateCounter` and the
updater's log included).  Hence a second call with the same arguments changes
nothing, and two calls in a row add at most one content-redirect message. -/
theorem setRingBufferSize_same_size_noop (b : SimpleRingBuffer) (numChannels numSamples : Int)
    (acquireLock : Bool) :
    (((b.validateChannels numChannels).2 = b.internalBuffer.getNumChannels ∧
        (b.validateLength numSamples).2 = b.internalBuffer.getNumSamples) →
      b.setRingBufferSize numChannels numSamples acquireLock = b) ∧
    (b.setRingBufferSize numChannels numSamples acquireLock).setRingBufferSize
        numChannels numSamples acquireLock =
      b.setRingBufferSize numChannels numSamples acquireLock ∧
    (((b.setRingBufferSize numChannels numSamples acquireLock).setRingBufferSize
        numChannels numSamples acquireLock).updater = b.updater ∨
      ((b.setRingBufferSize numChannels numSamples acquireLock).setRingBufferSize
        numChannels numSamples acquireLock).updater =
        b.updater ++ [EventType.ContentRedirected]) := by
  have hsecond : (b.setRingBufferSize numChannels numSamples acquireLock).setRingBufferSize
        numChannels numSamples acquireLock =
      b.setRingBufferSize numChannels numSamples acquireLock := by
    obtain ⟨hc, hs, hp⟩ :=
      SimpleRingBuffer.setRingBufferSize_dims b numChannels numSamples acquireLock
    apply SimpleRingBuffer.setRingBufferSize_of_eq
    · simp only [SimpleRingBuffer.validateChannels, hp]; exact hc.symm
    · simp only [SimpleRingBuffer.validateLength, hp]; exact hs.symm
  refine ⟨fun h => SimpleRingBuffer.setRingBufferSize_of_eq b _ _ _ h.1 h.2, hsecond, ?_⟩
  rw [hsecond]
  by_cases h : (b.validateChannels numChannels).2 ≠ b.internalBuffer.getNumChannels ∨
      (b.validateLength numSamples).2 ≠ b.internalBuffer.getNumSamples
  · right
    rw [SimpleRingBuffer.setRingBufferSize_of_ne b _ _ _ h]
  · left
    have hc : (b.validateChannels numChannels).2 = b.internalBuffer.getNumChannels := by
      by_contra hc; exact h (Or.inl hc)
    have hn : (b.validateLength numSamples).2 = b.internalBuffer.getNumSamples := by
      by_contra hn; exact h (Or.inr hn)
    rw [SimpleRingBuffer.setRingBufferSize_of_eq b _ _ _ hc hn]

theorem setRingBufferSize_same_size_noop_witness :
    ((((SimpleRingBuffer.withValidator fourSampleValidator).setRingBufferSize 1 4
          true).validateChannels 1).2 =
        ((SimpleRingBuffer.withValidator fourSampleValidator).setRingBufferSize 1 4
          true).internalBuffer.getNumChannels ∧
      (((SimpleRingBuffer.withValidator fourSampleValidator).setRingBufferSize 1 4
          true).validateLength 9).2 =
        ((SimpleRingBuffer.withValidator fourSampleValidator).setRingBufferSize 1 4
          true).internalBuffer.getNumSamples) ∧
    ((SimpleRingBuffer.withValidator fourSampleValidator).setRingBufferSize 1 4
        true).setRingBufferSize 1 9 true =
      (SimpleRingBuffer.withValidator fourSampleValidator).setRingBufferSize 1 4 true :=
  ⟨by decide,
    (setRingBufferSize_same_size_noop
      ((SimpleRingBuffer.withValidator fourSampleValidator).setRingBufferSize 1 4 true)
      1 9 true).1 (by decide)⟩

/-- C4: on an active buffer that `setRingBufferSize` has just resized to one
channel of capacity `C`, writing the samples 0, 1, ..., C+K-1 (in one `write`
call or split over several) and then calling `read` returns `C` and the
destination buffer holds exactly the last `C` values in chronological order,
K, K+1, ..., C+K-1. -/
theorem read_after_wraparound (b : SimpleRingBuffer) (numChannels numSamples : Int)
    (acquireLock : Bool) (C K : Nat) (blocks : List (List Sample))
    (hactive : b.active = true)
    (hc : (b.validateChannels numChannels).2 = 1)
    (hn : (b.validateLength numSamples).2 = (C : Int))
    (hdiff : b.internalBuffer.getNumChannels ≠ 1 ∨ b.internalBuffer.getNumSamples ≠ (C : Int))
    (hK : 0 < K)
    (hblocks : blocks.flatten = (List.range (C + K)).map Int.ofNat) :
    ((b.setRingBufferSize numChannels numSamples acquireLock).writeBlocks blocks).read =
      ((C : Int),
        { numChannels := 1
          size := (C : Int)
          channels := [(List.range' K C).map Int.ofNat] }) := by
  have _hK := hK
  have hne : (b.validateChannels numChannels).2 ≠ b.internalBuffer.getNumChannels ∨
      (b.validateLength numSamples).2 ≠ b.internalBuffer.getNumSamples := by
    rw [hc, hn]
    rcases hdiff with hd | hd
    · exact Or.inl (Ne.symm hd)
    · exact Or.inr (Ne.symm hd)
  rw [SimpleRingBuffer.setRingBufferSize_of_ne b _ _ _ hne, hc, hn]
  have hfresh := SimpleRingBuffer.holdsHistory_fresh
    { b with
      internalBuffer := AudioSampleBuffer.zeros 1 (C : Int)
      numAvailable := 0
      writeIndex := 0
      updateCounter := 0
      updater := b.updater ++ [EventType.ContentRedirected] } C rfl rfl rfl
  have hheld := SimpleRingBuffer.holdsHistory_writeBlocks C blocks _ [] hfresh hactive
  rw [List.nil_append, hblocks] at hheld
  rw [SimpleRingBuffer.read_of_holdsHistory _ C K _ hheld (by simp)]
  have hsplit : List.range (C + K) = List.range' 0 K ++ List.range' K C := by
    have happ := List.range'_append_1 0 K C
    rw [Nat.zero_add] at happ
    rw [List.range_eq_range']
    exact happ.symm
  have hlenK : (List.range' 0 K).length = K := by simp
  rw [hsplit, ← List.map_drop, List.drop_left' hlenK]

theorem read_after_wraparound_witness :
    (SimpleRingBuffer.withValidator fourSampleValidator).active = true ∧
    ((SimpleRingBuffer.withValidator fourSampleValidator).validateChannels 1).2 = 1 ∧
    ((SimpleRingBuffer.withValidator fourSampleValidator).validateLength 9).2 = ((4 : Nat) : Int) ∧
    ((SimpleRingBuffer.withValidator fourSampleValidator).internalBuffer.getNumChannels ≠ 1 ∨
      (SimpleRingBuffer.withValidator fourSampleValidator).internalBuffer.getNumSamples ≠
        ((4 : Nat) : Int)) ∧
    0 < 2 ∧
    ([[0, 1], [2, 3, 4], [5]] : List (List Sample)).flatten =
      (List.range (4 + 2)).map Int.ofNat ∧
    (((SimpleRingBuffer.withValidator fourSampleValidator).setRingBufferSize 1 9
        true).writeBlocks [[0, 1], [2, 3, 4], [5]]).read =
      (((4 : Nat) : Int),
        { numChannels := 1
          size := ((4 : Nat) : Int)
          channels := [(List.range' 2 4).map Int.ofNat] }) :=
  ⟨rfl, by decide, by decide, by decide, by decide, by decide,
    read_after_wraparound (SimpleRingBuffer.withValidator fourSampleValidator) 1 9 true 4 2
      [[0, 1], [2, 3, 4], [5]] rfl (by decide) (by decide) (by decide) (by decide) (by decide)⟩

end hise
